import Mathlib

/-!
# Verification of the mx-dashboard cost/revenue aggregation core

Shallow embedding of the aggregation and derived-metric logic of the
aircraft-cost dashboard, translated from the TypeScript source:

* `src/app/aircraft/[id]/page.tsx` — `totalSpend`, `tachValues`,
  `hoursFlown`, `costPerHour`, `benchmarkCompare`, `benchmarkStatus`;
* `src/app/components/AllInCostPanel.tsx` — `allIn`;
* `src/unnamed/part_002` (RentalIncomePanel) — `currentRate`,
  `logsInRange`, `maintenanceInRange`, `totals`, `yearSeries`, and the
  date helpers `ymd`, `firstOfMonth`, `lastOfMonth`;
* `src/app/components/MonthlyCostChart.tsx` — `parseLocalDate`,
  `filtered`, `totalsByCategory`.

JavaScript numbers are modelled by `JNum`: an exact rational together
with the three non-finite values `NaN`, `Infinity`, `-Infinity`
(finite arithmetic is modelled exactly over `ℚ`; rounding is not
modelled).  A nullable JS field of number type is `Option JNum`
(`none` = `null`/`undefined`/non-number).  `YYYY-MM-DD` date strings
are compared as the source compares them: lexicographically on
code units (`lexLe`), which for such strings agrees with JS `<=`/`>=`
and with `localeCompare` ordering on ASCII.
-/

/-- A JavaScript number: `NaN`, `Infinity`, `-Infinity`, or a finite
value (modelled exactly as a rational). -/
inductive JNum where
  | nan : JNum
  | inf : JNum
  | ninf : JNum
  | fin : ℚ → JNum
deriving DecidableEq, Repr, Inhabited

namespace JNum

/-- JS addition `x + y` on numbers: `NaN` is absorbing,
`Infinity + -Infinity = NaN`, an infinity absorbs finite values. -/
def jadd : JNum → JNum → JNum
  | nan, _ => nan
  | _, nan => nan
  | inf, ninf => nan
  | ninf, inf => nan
  | inf, _ => inf
  | _, inf => inf
  | ninf, _ => ninf
  | _, ninf => ninf
  | fin a, fin b => fin (a + b)

/-- JS unary negation on numbers. -/
def jneg : JNum → JNum
  | nan => nan
  | inf => ninf
  | ninf => inf
  | fin a => fin (-a)

/-- JS subtraction `x - y = x + (-y)`. -/
def jsub (a b : JNum) : JNum := jadd a (jneg b)

/-- JS multiplication on numbers: `NaN` absorbing, `Infinity * 0 = NaN`,
otherwise infinities follow the sign rules. -/
def jmul : JNum → JNum → JNum
  | nan, _ => nan
  | _, nan => nan
  | inf, inf => inf
  | inf, ninf => ninf
  | ninf, inf => ninf
  | ninf, ninf => inf
  | inf, fin q => if 0 < q then inf else if q < 0 then ninf else nan
  | fin q, inf => if 0 < q then inf else if q < 0 then ninf else nan
  | ninf, fin q => if 0 < q then ninf else if q < 0 then inf else nan
  | fin q, ninf => if 0 < q then ninf else if q < 0 then inf else nan
  | fin a, fin b => fin (a * b)

/-- JS division on numbers (the single rational `0` plays the role of
`+0`): `NaN` absorbing, `±Infinity / ±Infinity = NaN`,
`finite / ±Infinity = 0`, `nonzero / 0 = ±Infinity`, `0 / 0 = NaN`. -/
def jdiv : JNum → JNum → JNum
  | nan, _ => nan
  | _, nan => nan
  | inf, inf => nan
  | inf, ninf => nan
  | ninf, inf => nan
  | ninf, ninf => nan
  | inf, fin q => if q < 0 then ninf else inf
  | ninf, fin q => if q < 0 then inf else ninf
  | fin _, inf => fin 0
  | fin _, ninf => fin 0
  | fin a, fin b =>
      if b = 0 then (if a = 0 then nan else if 0 < a then inf else ninf)
      else fin (a / b)

/-- JS `x > 0` on a number. -/
def gtZero : JNum → Bool
  | nan => false
  | inf => true
  | ninf => false
  | fin q => decide (0 < q)

/-- JS `x <= 0` on a number (`NaN <= 0` is `false`). -/
def leZero : JNum → Bool
  | nan => false
  | inf => false
  | ninf => true
  | fin q => decide (q ≤ 0)

/-- Models `Number.isFinite` restricted to numbers. -/
def isFinite : JNum → Bool
  | fin _ => true
  | _ => false

/-- The finite value of a `JNum`, `0` otherwise. -/
def theQ : JNum → ℚ
  | fin q => q
  | _ => 0

end JNum

open JNum

/-- The JS idiom `Number(x) || 0` applied to a nullable numeric field:
`null`/`undefined`/non-numbers coerce to `NaN` or `0`, and every falsy
result (`0`, `NaN`) is replaced by `0`; `±Infinity` passes through. -/
def numOr0 : Option JNum → JNum
  | none => .fin 0
  | some .nan => .fin 0
  | some .inf => .inf
  | some .ninf => .ninf
  | some (.fin q) => .fin q

/-- The finite part of a nullable JS number: `some q` exactly when the
field holds a finite number `q` (mirrors the source filter
`typeof v === "number" && Number.isFinite(v)`). -/
def finPart : Option JNum → Option ℚ
  | some (.fin q) => some q
  | _ => none

/-- Left fold of JS `+` with initial accumulator `0`, the shape of every
`reduce((s, x) => s + f(x), 0)` in the source. -/
def jsuml (l : List JNum) : JNum := l.foldl jadd (.fin 0)

/-- Lexicographic `≤` on code-unit lists: the comparison JS performs for
`s <= t` (and `>=`) on strings. -/
def lexLe : List Char → List Char → Bool
  | [], _ => true
  | _ :: _, [] => false
  | a :: as, b :: bs =>
      if a.toNat < b.toNat then true
      else if b.toNat < a.toNat then false
      else lexLe as bs

/-- JS string comparison `s <= t` (UTF-16 code-unit order; on the ASCII
`YYYY-MM-DD` strings used here this also agrees with `localeCompare`). -/
def strLe (s t : String) : Bool := lexLe s.toList t.toList

/-! ## Date helpers (`part_002`: `ymd`, `firstOfMonth`, `lastOfMonth`)

`ymd(new Date(y, m0, 1))` and `ymd(new Date(y, m0 + 1, 0))` are modelled
directly as the strings they produce for calendar years `y ≥ 100`
(JS maps constructor years 0–99 to 1900+y; the dashboard only ever
passes 4-digit years). -/

/-- Models `String(n).padStart(2, "0")` for `n ≤ 99`. -/
def pad2 (n : ℕ) : String := if n < 10 then "0" ++ toString n else toString n

/-- Gregorian leap-year rule, as implemented by the JS `Date` rollover
used in `lastOfMonth`. -/
def isLeap (y : ℕ) : Bool := (y % 4 == 0 && y % 100 != 0) || y % 400 == 0

/-- Models `new Date(y, m0 + 1, 0).getDate()`: the day count of month `m0`
(0-indexed) of year `y`. -/
def daysInMonth (y m0 : ℕ) : ℕ :=
  if m0 = 1 then (if isLeap y then 29 else 28)
  else if m0 = 3 ∨ m0 = 5 ∨ m0 = 8 ∨ m0 = 10 then 30
  else 31

/-- Models `ymd(firstOfMonth(year, m0))`. -/
def monthStart (year m0 : ℕ) : String :=
  toString year ++ "-" ++ pad2 (m0 + 1) ++ "-01"

/-- Models `ymd(lastOfMonth(year, m0))`. -/
def monthEnd (year m0 : ℕ) : String :=
  toString year ++ "-" ++ pad2 (m0 + 1) ++ "-" ++ pad2 (daysInMonth year m0)

/-! ## `src/app/aircraft/[id]/page.tsx` -/

/-- One maintenance entry as the aircraft page sees it: nullable amount
and nullable cumulative tach-hours counter. -/
structure PageEntry where
  amount : Option JNum
  tach_hours : Option JNum
deriving DecidableEq

/-- Models `entries.reduce((sum, e) => sum + (typeof e.amount === "number" ? e.amount : 0), 0)`. -/
def totalSpend (entries : List PageEntry) : JNum :=
  entries.foldl
    (fun s e => jadd s (match e.amount with | some n => n | none => .fin 0))
    (.fin 0)

/-- Models `entries.map(e => e.tach_hours).filter(isFiniteNumber).sort((a,b) => a-b)`:
the finite tach samples, sorted ascending (JS `sort` is a stable sort
producing a sorted permutation; `insertionSort` is one such). -/
def tachValues (entries : List PageEntry) : List ℚ :=
  List.insertionSort (fun a b => a ≤ b)
    ((entries.map (fun e => e.tach_hours)).filterMap finPart)

/-- Models `tachValues.length < 2 ? 0 : max(0, last - first)` — the page's
hours-flown derivation from the sorted tach samples. -/
def hoursFlown (entries : List PageEntry) : ℚ :=
  let t := tachValues entries
  if t.length < 2 then 0
  else
    let diff := t.getLastD 0 - t.headD 0
    if 0 < diff then diff else 0

/-- Models `hoursFlown > 0 ? totalSpend / hoursFlown : null` as a function of the
two finite operands. -/
def costPerHour (total hours : ℚ) : Option ℚ :=
  if 0 < hours then some (total / hours) else none

/-- Models `AllInCostPanel.tsx`: `hrs <= 0 ? null : includedCost / hrs`
(after `hrs = Number(hoursFlownAllTime) || 0`). -/
def allIn (includedCost hrs : ℚ) : Option ℚ :=
  if hrs ≤ 0 then none else some (includedCost / hrs)

/-- A benchmark row: the comparison only reads `hourly_cost`. -/
structure Benchmark where
  hourly_cost : ℚ
deriving DecidableEq

/-- Output record of `benchmarkCompare`. -/
structure BenchCmp where
  diff : ℚ
  pct : ℚ
  above : Bool
  equalish : Bool
deriving DecidableEq

/-- Models `benchmarkCompare`: `null` when no benchmark, when
`benchmark.hourly_cost <= 0`, or when `costPerHour == null`; otherwise
`{diff, pct, above, equalish}` with `pct = diff / hourly_cost * 100`
and `equalish = |pct| < 0.5`. -/
def benchmarkCompare (benchmark : Option Benchmark) (cph : Option ℚ) :
    Option BenchCmp :=
  match benchmark with
  | none => none
  | some b =>
    if b.hourly_cost ≤ 0 then none
    else
      match cph with
      | none => none
      | some c =>
        let diff := c - b.hourly_cost
        let pct := diff / b.hourly_cost * 100
        some ⟨diff, pct, decide (0 < diff), decide (|pct| < 1/2)⟩

/-- Output record of `benchmarkStatus`. -/
structure BenchStatus where
  label : String
  color : String
deriving DecidableEq

/-- Models `benchmarkStatus`: band by `|pct|` — `≤ 10` on track, `≤ 25` watch,
else high. -/
def benchmarkStatus (c : Option BenchCmp) : Option BenchStatus :=
  match c with
  | none => none
  | some cmp =>
    if |cmp.pct| ≤ 10 then some ⟨"On track", "#22c55e"⟩
    else if |cmp.pct| ≤ 25 then some ⟨"Watch", "#f59e0b"⟩
    else some ⟨"High", "#ef4444"⟩

/-! ## `src/unnamed/part_002` (RentalIncomePanel) -/

/-- A rental log row (`rental_date` is `YYYY-MM-DD`; the numeric fields
are wrapped in `Number(·) || 0` by every consumer, so they are modelled
as nullable JS numbers). -/
structure RentalLog where
  rental_date : String
  hours : Option JNum
  hourly_rate : Option JNum
deriving DecidableEq

/-- A maintenance entry row as the rental panel reads it. -/
structure MaintenanceEntry where
  entry_date : String
  amount : Option JNum
deriving DecidableEq

/-- A rental rate row. -/
structure RentalRate where
  hourly_rate : ℚ
  effective_from : String
deriving DecidableEq

/-- Models `currentRate`: `null` for an empty collection; otherwise filter to
`effective_from <= today`, sort ascending by `effective_from`
(`localeCompare`; stable), and take the last; if the filter is empty,
fall back to `rates[rates.length - 1]`, the last element of the array
as fetched (the query orders by `effective_from` ascending). -/
def currentRate (rates : List RentalRate) (today : String) :
    Option RentalRate :=
  if rates.isEmpty then none
  else
    let usable := List.insertionSort
      (fun a b => strLe a.effective_from b.effective_from = true)
      (rates.filter (fun r => strLe r.effective_from today))
    match usable.getLast? with
    | some r => some r
    | none => rates.getLast?

/-- Models `logs.filter(l => l.rental_date >= range.start && l.rental_date <= range.end)`. -/
def logsInRange (logs : List RentalLog) (start stop : String) :
    List RentalLog :=
  logs.filter (fun l => strLe start l.rental_date && strLe l.rental_date stop)

/-- Models `maintenance.filter(m => m.entry_date >= range.start && m.entry_date <= range.end)`. -/
def maintenanceInRange (maint : List MaintenanceEntry) (start stop : String) :
    List MaintenanceEntry :=
  maint.filter (fun m => strLe start m.entry_date && strLe m.entry_date stop)

/-- Output record of `totals`. -/
structure Totals where
  hours : JNum
  revenue : JNum
  spend : JNum
  profit : JNum
  profitPerHr : Option JNum
deriving DecidableEq

/-- Models `totals`: hours, revenue (`hours * hourly_rate` per log), maintenance
spend, profit = revenue − spend, and `profit / hours` when `hours > 0`
else `null`, all over the logs/maintenance restricted to the range. -/
def totals (logs : List RentalLog) (maint : List MaintenanceEntry)
    (start stop : String) : Totals :=
  let lr := logsInRange logs start stop
  let mr := maintenanceInRange maint start stop
  let hours := jsuml (lr.map (fun l => numOr0 l.hours))
  let revenue := jsuml (lr.map (fun l => jmul (numOr0 l.hours) (numOr0 l.hourly_rate)))
  let spend := jsuml (mr.map (fun m => numOr0 m.amount))
  let profit := jsub revenue spend
  let profitPerHr := if hours.gtZero then some (jdiv profit hours) else none
  ⟨hours, revenue, spend, profit, profitPerHr⟩

/-- One row of `yearSeries`. -/
structure SeriesRow where
  month0 : ℕ
  start : String
  stop : String
  hours : JNum
  revenue : JNum
  spend : JNum
  profit : JNum
  profitPerHr : Option JNum
deriving DecidableEq, Inhabited

/-- Models `yearSeries`: `Array.from({length: 12}).map((_, month0) => …)` — one
row per calendar month of `year`, each aggregated over that month's
inclusive `[ymd(firstOfMonth), ymd(lastOfMonth)]` range exactly as in
the source (the per-month body repeats the `totals` computation). -/
def yearSeries (logs : List RentalLog) (maint : List MaintenanceEntry)
    (year : ℕ) : List SeriesRow :=
  (List.range 12).map (fun m0 =>
    let start := monthStart year m0
    let stop := monthEnd year m0
    let monthLogs := logs.filter
      (fun l => strLe start l.rental_date && strLe l.rental_date stop)
    let monthMaint := maint.filter
      (fun m => strLe start m.entry_date && strLe m.entry_date stop)
    let hours := jsuml (monthLogs.map (fun l => numOr0 l.hours))
    let revenue := jsuml (monthLogs.map
      (fun l => jmul (numOr0 l.hours) (numOr0 l.hourly_rate)))
    let spend := jsuml (monthMaint.map (fun m => numOr0 m.amount))
    let profit := jsub revenue spend
    let profitPerHr := if hours.gtZero then some (jdiv profit hours) else none
    ⟨m0, start, stop, hours, revenue, spend, profit, profitPerHr⟩)

/-- The rental panel's fetched state: the three row collections held in
component state and read by the memos. -/
structure PanelState where
  logs : List RentalLog
  rates : List RentalRate
  maintenance : List MaintenanceEntry

/-- Models `totals` as a memo over the panel state (it reads only `logs` and
`maintenance`). -/
def totalsOf (s : PanelState) (start stop : String) : Totals :=
  totals s.logs s.maintenance start stop

/-- Models `yearSeries` as a memo over the panel state. -/
def yearSeriesOf (s : PanelState) (year : ℕ) : List SeriesRow :=
  yearSeries s.logs s.maintenance year

/-! ## `src/app/components/MonthlyCostChart.tsx` -/

/-- The chart's view selector. -/
inductive ChartView where
  | all : ChartView
  | year : ChartView
  | month : ChartView
deriving DecidableEq

/-- One entry as the chart receives it: nullable category, nullable
amount, nullable `YYYY-MM-DD` date string. -/
structure ChartEntry where
  category : Option String
  amount : Option JNum
  entry_date : Option String
deriving DecidableEq

/-- A parsed local calendar date (what the chart reads back from the
`Date` it builds: `getFullYear`/`getMonth`). -/
structure LocalDate where
  year : ℕ
  month0 : ℕ
  day : ℕ
deriving DecidableEq

/-- The numeric value of an ASCII digit character. -/
def digitVal (c : Char) : Option ℕ :=
  if 48 ≤ c.val.toNat ∧ c.val.toNat ≤ 57 then some (c.val.toNat - 48) else none

/-- Models `parseLocalDate(iso) = new Date(iso + "T00:00:00")`, modelled for the
documented `YYYY-MM-DD` field format: the ISO parse succeeds exactly on
ten-character digit/hyphen strings whose month and day components are in
calendar range; anything else yields an invalid date
(`Number.isNaN(d.getTime())`), here `none`. -/
def parseLocalDate (iso : String) : Option LocalDate :=
  match iso.toList with
  | [y1, y2, y3, y4, h1, m1, m2, h2, d1, d2] =>
    match digitVal y1, digitVal y2, digitVal y3, digitVal y4,
          digitVal m1, digitVal m2, digitVal d1, digitVal d2 with
    | some a, some b, some c, some d, some m, some n, some p, some q =>
      if h1 = '-' ∧ h2 = '-' then
        let year := ((a * 10 + b) * 10 + c) * 10 + d
        let month := m * 10 + n
        let day := p * 10 + q
        if 1 ≤ month ∧ month ≤ 12 ∧ 1 ≤ day ∧ day ≤ daysInMonth year (month - 1)
        then some ⟨year, month - 1, day⟩
        else none
      else none
    | _, _, _, _, _, _, _, _ => none
  | _ => none

/-- The predicate of the chart's `filtered` memo (the callback passed to
`entries.filter`): reject a falsy `entry_date` (`null` or `""`), reject
a date that fails to parse (`Number.isNaN(d.getTime())`), then keep the
entry according to the view (`month`/`year` match against "now",
modelled by `todayY`/`todayM0`; `all` keeps everything). -/
def chartKeep (todayY todayM0 : ℕ) (view : ChartView)
    (e : ChartEntry) : Bool :=
  match e.entry_date with
  | none => false
  | some ds =>
    if ds.isEmpty then false
    else
      match parseLocalDate ds with
      | none => false
      | some d =>
        match view with
        | .month => d.year == todayY && d.month0 == todayM0
        | .year => d.year == todayY
        | .all => true

/-- The chart's `filtered` memo. -/
def filtered (todayY todayM0 : ℕ) (view : ChartView)
    (entries : List ChartEntry) : List ChartEntry :=
  entries.filter (chartKeep todayY todayM0 view)

/-- Models `map[cat] = (map[cat] ?? 0) + amount` on a JS object modelled as an
insertion-ordered association list. -/
def bump : List (String × JNum) → String → JNum → List (String × JNum)
  | [], c, a => [(c, a)]
  | (k, v) :: rest, c, a =>
      if k = c then (k, jadd v a) :: rest
      else (k, v) :: bump rest c a

/-- The chart's `totalsByCategory` memo: fold the filtered entries into a
category → summed-amount map (`category ?? "Other"`, `amount ?? 0`). -/
def totalsByCategory (l : List ChartEntry) : List (String × JNum) :=
  l.foldl
    (fun m e => bump m (e.category.getD "Other")
      (match e.amount with | some n => n | none => .fin 0))
    []

/-- Models `Object.values(totalsByCategory).reduce((a, b) => a + b, 0)`. -/
def chartTotal (l : List ChartEntry) : JNum :=
  jsuml ((totalsByCategory l).map Prod.snd)

/-- An entry has a usable date: the field is truthy (non-null,
non-empty) and parses to a valid local date.  This is exactly the part
of the chart's filter that does not depend on the selected view. -/
def hasValidDate (e : ChartEntry) : Bool :=
  match e.entry_date with
  | none => false
  | some ds => !ds.isEmpty && (parseLocalDate ds).isSome

/-! ## IEEE-754 binary64 rounding model

The `JNum` arithmetic above models the finite case exactly; the actual
JS `+` rounds every finite result to 53 bits of significand.  Where that
rounding is load-bearing — the order-dependence of the source's
`reduce((s, x) => s + x, 0)` sums — the following model of binary64
addition is used.  It covers finite operands whose results stay in the
normal range (no overflow, no subnormals, and the single rational `0`
for both signed zeros), which includes all inputs it is applied to
here. -/

/-- Rounding of a rational to an integer: round to nearest, ties to
even. -/
def roundHalfEven (x : ℚ) : ℤ :=
  if x - ⌊x⌋ < 1/2 then ⌊x⌋
  else if 1/2 < x - ⌊x⌋ then ⌊x⌋ + 1
  else if ⌊x⌋ % 2 = 0 then ⌊x⌋ else ⌊x⌋ + 1

/-- Rounding of an exact rational to the nearest IEEE-754 binary64
value (round to nearest, ties to even): scale the magnitude into
`[2^52, 2^53)` using its binary exponent, round to an integer
significand, and scale back. -/
def dRound (q : ℚ) : ℚ :=
  if q = 0 then 0
  else if q < 0 then
    -((roundHalfEven (-q * 2 ^ ((52 : ℤ) - Int.log 2 (-q))) : ℚ) *
      2 ^ (Int.log 2 (-q) - 52))
  else
    (roundHalfEven (q * 2 ^ ((52 : ℤ) - Int.log 2 q)) : ℚ) *
      2 ^ (Int.log 2 q - 52)

/-- IEEE binary64 addition — the `+` the source's `reduce` actually
performs on finite, in-range doubles: the exact sum, rounded. -/
def dadd (a b : ℚ) : ℚ := dRound (a + b)

/-- The source's `reduce((s, x) => s + x, 0)` over actual doubles: the
double-precision evaluation of `totalSpend`/`totals` on entries whose
amounts are the listed finite values. -/
def dsum (l : List ℚ) : ℚ := l.foldl dadd 0

/-! ## Algebraic facts about the JS-number model -/

theorem jadd_fin_fin (a b : ℚ) : jadd (.fin a) (.fin b) = .fin (a + b) := rfl

theorem zero_jadd (x : JNum) : jadd (.fin 0) x = x := by
  cases x <;> simp [jadd]

theorem jadd_zero (x : JNum) : jadd x (.fin 0) = x := by
  cases x <;> simp [jadd]

theorem jadd_comm (x y : JNum) : jadd x y = jadd y x := by
  cases x <;> cases y <;> simp [jadd] <;> ring

theorem jadd_assoc (x y z : JNum) :
    jadd (jadd x y) z = jadd x (jadd y z) := by
  cases x <;> cases y <;> cases z <;> simp [jadd] <;> ring

theorem foldl_jadd_acc (l : List JNum) :
    ∀ a b, l.foldl jadd (jadd a b) = jadd a (l.foldl jadd b) := by
  induction l with
  | nil => intro a b; rfl
  | cons c t ih =>
      intro a b
      simp only [List.foldl_cons]
      rw [jadd_assoc, ih]

theorem jsuml_nil : jsuml [] = .fin 0 := rfl

theorem jsuml_cons (x : JNum) (l : List JNum) :
    jsuml (x :: l) = jadd x (jsuml l) := by
  show List.foldl jadd (jadd (.fin 0) x) l = jadd x (jsuml l)
  rw [zero_jadd, ← jadd_zero x, foldl_jadd_acc, jadd_zero]
  rfl

theorem jsuml_perm {l l' : List JNum} (h : l.Perm l') : jsuml l = jsuml l' := by
  induction h with
  | nil => rfl
  | cons x _ ih => rw [jsuml_cons, jsuml_cons, ih]
  | swap x y t =>
      rw [jsuml_cons, jsuml_cons, jsuml_cons, jsuml_cons,
        ← jadd_assoc, ← jadd_assoc, jadd_comm x y]
  | trans _ _ ih₁ ih₂ => rw [ih₁, ih₂]

theorem jsuml_fin {l : List JNum} (h : ∀ x ∈ l, ∃ q : ℚ, x = .fin q) :
    jsuml l = .fin ((l.map theQ).sum) := by
  induction l with
  | nil => simp [jsuml_nil]
  | cons x t ih =>
      have ht : ∀ y ∈ t, ∃ q : ℚ, y = .fin q :=
        fun y hy => h y (List.mem_cons_of_mem x hy)
      obtain ⟨q, rfl⟩ := h x (List.mem_cons_self x t)
      rw [jsuml_cons, ih ht]
      simp [jadd_fin_fin, theQ]

/-! ## Order facts about the string comparison -/

theorem lexLe_refl : ∀ (a : List Char), lexLe a a = true
  | [] => rfl
  | x :: xs => by simp [lexLe, lexLe_refl xs]

theorem lexLe_trans :
    ∀ (a b c : List Char), lexLe a b = true → lexLe b c = true →
      lexLe a c = true
  | [], _, _, _, _ => rfl
  | _ :: _, [], _, hab, _ => by simp [lexLe] at hab
  | _ :: _, _ :: _, [], _, hbc => by simp [lexLe] at hbc
  | x :: xs, y :: ys, z :: zs, hab, hbc => by
      by_cases hxy : x.toNat < y.toNat
      · by_cases hyz : y.toNat < z.toNat
        · simp [lexLe, show x.toNat < z.toNat from by omega]
        · by_cases hzy : z.toNat < y.toNat
          · simp [lexLe, hyz, hzy] at hbc
          · simp [lexLe, show x.toNat < z.toNat from by omega]
      · by_cases hyx : y.toNat < x.toNat
        · simp [lexLe, hxy, hyx] at hab
        · by_cases hyz : y.toNat < z.toNat
          · simp [lexLe, show x.toNat < z.toNat from by omega]
          · by_cases hzy : z.toNat < y.toNat
            · simp [lexLe, hyz, hzy] at hbc
            · have h1 : ¬ x.toNat < z.toNat := by omega
              have h2 : ¬ z.toNat < x.toNat := by omega
              simp only [lexLe, if_neg hxy, if_neg hyx] at hab
              simp only [lexLe, if_neg hyz, if_neg hzy] at hbc
              simp only [lexLe, if_neg h1, if_neg h2]
              exact lexLe_trans xs ys zs hab hbc

theorem lexLe_total : ∀ (a b : List Char), lexLe a b = true ∨ lexLe b a = true
  | [], _ => Or.inl rfl
  | _ :: _, [] => Or.inr rfl
  | x :: xs, y :: ys => by
      by_cases hxy : x.toNat < y.toNat
      · exact Or.inl (by simp [lexLe, hxy])
      · by_cases hyx : y.toNat < x.toNat
        · exact Or.inr (by simp [lexLe, hyx])
        · rcases lexLe_total xs ys with h | h
          · exact Or.inl (by simp [lexLe, hxy, hyx, h])
          · exact Or.inr (by simp [lexLe, hxy, hyx, h])

theorem strLe_refl (a : String) : strLe a a = true := lexLe_refl _

theorem strLe_trans {a b c : String} (h1 : strLe a b = true)
    (h2 : strLe b c = true) : strLe a c = true :=
  lexLe_trans _ _ _ h1 h2

theorem strLe_total (a b : String) : strLe a b = true ∨ strLe b a = true :=
  lexLe_total _ _

instance : IsTrans RentalRate
    (fun a b => strLe a.effective_from b.effective_from = true) :=
  ⟨fun _ _ _ => strLe_trans⟩

instance : IsTotal RentalRate
    (fun a b => strLe a.effective_from b.effective_from = true) :=
  ⟨fun _ _ => strLe_total _ _⟩

/-! ## Facts about sorted lists -/

theorem mem_of_getLast?_eq {α : Type} {l : List α} {y : α}
    (h : l.getLast? = some y) : y ∈ l := by
  have hx : y ∈ l.getLast? := by simp [Option.mem_def, h]
  obtain ⟨hne, rfl⟩ := List.mem_getLast?_eq_getLast hx
  exact List.getLast_mem hne

theorem sorted_rel_getLast {α : Type} {r : α → α → Prop}
    (hrefl : ∀ a, r a a) :
    ∀ (l : List α), l.Sorted r → ∀ x ∈ l, ∀ y, l.getLast? = some y → r x y := by
  intro l
  induction l with
  | nil => intro _ x hx; cases hx
  | cons a t ih =>
      intro hs x hx y hy
      cases t with
      | nil =>
          simp at hx hy
          subst hx
          subst hy
          exact hrefl x
      | cons b u =>
          rw [List.getLast?_cons_cons] at hy
          rcases List.mem_cons.mp hx with rfl | hxt
          · exact (List.pairwise_cons.mp hs).1 y
              (mem_of_getLast?_eq hy)
          · exact ih hs.of_cons x hxt y hy

theorem sorted_head_rel {α : Type} {r : α → α → Prop}
    (hrefl : ∀ a, r a a) :
    ∀ (l : List α), l.Sorted r → ∀ x ∈ l, ∀ y, l.head? = some y → r y x := by
  intro l
  induction l with
  | nil => intro _ x hx; cases hx
  | cons a t _ =>
      intro hs x hx y hy
      simp only [List.head?_cons, Option.some.injEq] at hy
      subst hy
      rcases List.mem_cons.mp hx with rfl | hxt
      · exact hrefl x
      · exact (List.pairwise_cons.mp hs).1 x hxt

/-! ## Claims -/

/-- C1: the per-hour derivation (`costPerHour` on the aircraft page and
`allIn` in the all-in cost panel) returns `total / hours` when
`hours > 0` and `null` when `hours = 0` (it is total, so no exception is
possible); in particular `perHour(t, 0) = null` for every `t`, and
`perHour(0, h) = 0` for every `h > 0`, distinguishing zero cost from an
unknown rate. -/
theorem C1_perHour_contract (t h : ℚ) :
    (0 < h → costPerHour t h = some (t / h) ∧ allIn t h = some (t / h)) ∧
    (h = 0 → costPerHour t h = none ∧ allIn t h = none) ∧
    (0 < h → costPerHour 0 h = some 0) := by
  refine ⟨?_, ?_, ?_⟩
  · intro hh
    exact ⟨by simp [costPerHour, hh], by simp [allIn, not_le.mpr hh]⟩
  · rintro rfl
    exact ⟨by simp [costPerHour], by simp [allIn]⟩
  · intro hh
    simp [costPerHour, hh]

/-- Witness for C1 at concrete inputs: `perHour(6, 2) = 3` (both
implementations) and `perHour(7, 0) = null`. -/
theorem C1_perHour_contract_witness :
    costPerHour 6 2 = some 3 ∧ allIn 6 2 = some 3 ∧
      costPerHour 7 0 = none ∧ allIn 7 0 = none := by
  have hpos := (C1_perHour_contract 6 2).1 (by norm_num)
  have hzero := (C1_perHour_contract 7 0).2.1 rfl
  refine ⟨?_, ?_, hzero.1, hzero.2⟩
  · rw [hpos.1]; norm_num
  · rw [hpos.2]; norm_num

/-- C4: benchmark comparison returns `null` when the benchmark is
missing or its hourly cost is `≤ 0`, or when the observed cost-per-hour
is `null`; otherwise `diff = observed − benchmark`,
`pct = diff / benchmark × 100`, `equalish ↔ |pct| < 0.5`; the band is
"On track" for `|pct| ≤ 10`, "Watch" for `10 < |pct| ≤ 25`, "High" for
`|pct| > 25`; and observed 66 against benchmark 60 gives `diff = 6`,
`pct = 10`, band "On track" (boundary case). -/
theorem C4_benchmark_contract :
    (∀ c, benchmarkCompare none c = none) ∧
    (∀ b c, b.hourly_cost ≤ 0 → benchmarkCompare (some b) c = none) ∧
    (∀ b, benchmarkCompare (some b) none = none) ∧
    (∀ (b : Benchmark) (c : ℚ), 0 < b.hourly_cost →
      benchmarkCompare (some b) (some c) =
        some ⟨c - b.hourly_cost, (c - b.hourly_cost) / b.hourly_cost * 100,
          decide (0 < c - b.hourly_cost),
          decide (|(c - b.hourly_cost) / b.hourly_cost * 100| < 1/2)⟩) ∧
    (∀ cmp : BenchCmp,
      (|cmp.pct| ≤ 10 →
        benchmarkStatus (some cmp) = some ⟨"On track", "#22c55e"⟩) ∧
      (10 < |cmp.pct| → |cmp.pct| ≤ 25 →
        benchmarkStatus (some cmp) = some ⟨"Watch", "#f59e0b"⟩) ∧
      (25 < |cmp.pct| →
        benchmarkStatus (some cmp) = some ⟨"High", "#ef4444"⟩)) ∧
    (benchmarkCompare (some ⟨60⟩) (some 66) = some ⟨6, 10, true, false⟩ ∧
      benchmarkStatus (benchmarkCompare (some ⟨60⟩) (some 66)) =
        some ⟨"On track", "#22c55e"⟩) := by
  refine ⟨fun c => rfl, ?_, ?_, ?_, ?_, ?_, ?_⟩
  · intro b c hb
    simp [benchmarkCompare, hb]
  · intro b
    by_cases hb : b.hourly_cost ≤ 0 <;> simp [benchmarkCompare, hb]
  · intro b c hb
    simp [benchmarkCompare, not_le.mpr hb]
  · intro cmp
    refine ⟨fun h10 => ?_, fun h10 h25 => ?_, fun h25 => ?_⟩
    · simp [benchmarkStatus, h10]
    · simp [benchmarkStatus, not_le.mpr h10, h25]
    · have h10 : (10 : ℚ) < |cmp.pct| := lt_trans (by norm_num) h25
      simp [benchmarkStatus, not_le.mpr h10, not_le.mpr h25]
  · show benchmarkCompare (some ⟨60⟩) (some 66) = some ⟨6, 10, true, false⟩
    norm_num [benchmarkCompare, BenchCmp.mk.injEq]
  · show benchmarkStatus (benchmarkCompare (some ⟨60⟩) (some 66)) =
      some ⟨"On track", "#22c55e"⟩
    norm_num [benchmarkCompare, benchmarkStatus, BenchCmp.mk.injEq]

/-- Witness for C4: the formula conjunct applied at benchmark 60 and
observed 66 yields the "on track" boundary record. -/
theorem C4_benchmark_contract_witness :
    benchmarkCompare (some ⟨(60 : ℚ)⟩) (some 66) = some ⟨6, 10, true, false⟩ := by
  have h := C4_benchmark_contract.2.2.2.1 ⟨(60 : ℚ)⟩ 66 (by norm_num)
  rw [h]
  norm_num [BenchCmp.mk.injEq]

/-- The function `tachValues` is permutation-invariant: sorting a permutation of the
same finite samples yields the same sorted list. -/
theorem tachValues_perm {es es' : List PageEntry} (h : es.Perm es') :
    tachValues es = tachValues es' := by
  have hv : ((es.map (fun e => e.tach_hours)).filterMap finPart).Perm
      ((es'.map (fun e => e.tach_hours)).filterMap finPart) :=
    (h.map _).filterMap _
  exact List.eq_of_perm_of_sorted
    (((List.perm_insertionSort _ _).trans hv).trans
      (List.perm_insertionSort _ _).symm)
    (List.sorted_insertionSort _ _) (List.sorted_insertionSort _ _)

/-- When at least two finite samples exist, `hoursFlown` is exactly
(max sample) − (min sample). -/
theorem hoursFlown_max_min (es : List PageEntry) (a b : ℚ)
    (hlen : 2 ≤ ((es.map (fun e => e.tach_hours)).filterMap finPart).length)
    (ha : a ∈ (es.map (fun e => e.tach_hours)).filterMap finPart)
    (hb : b ∈ (es.map (fun e => e.tach_hours)).filterMap finPart)
    (hbound : ∀ x ∈ (es.map (fun e => e.tach_hours)).filterMap finPart,
      b ≤ x ∧ x ≤ a) :
    hoursFlown es = a - b := by
  have hperm : (tachValues es).Perm
      ((es.map (fun e => e.tach_hours)).filterMap finPart) :=
    List.perm_insertionSort _ _
  have hsorted : (tachValues es).Sorted (fun x y : ℚ => x ≤ y) :=
    List.sorted_insertionSort _ _
  have hlen' : 2 ≤ (tachValues es).length := by
    rw [hperm.length_eq]; exact hlen
  have htne : tachValues es ≠ [] := by
    intro h0
    rw [h0] at hlen'
    simp at hlen'
  obtain ⟨y, hy⟩ : ∃ y, (tachValues es).getLast? = some y := by
    cases ht : (tachValues es).getLast? with
    | none => exact absurd (List.getLast?_eq_none_iff.mp ht) htne
    | some y => exact ⟨y, rfl⟩
  obtain ⟨w, hw⟩ : ∃ w, (tachValues es).head? = some w := by
    cases ht : (tachValues es).head? with
    | none => exact absurd (List.head?_eq_none_iff.mp ht) htne
    | some w => exact ⟨w, rfl⟩
  have hy_mem : y ∈ (es.map (fun e => e.tach_hours)).filterMap finPart :=
    hperm.mem_iff.mp (mem_of_getLast?_eq hy)
  have hw_mem : w ∈ (es.map (fun e => e.tach_hours)).filterMap finPart :=
    hperm.mem_iff.mp (List.mem_of_mem_head? (by simp [Option.mem_def, hw]))
  have ha_t : a ∈ tachValues es := hperm.mem_iff.mpr ha
  have hb_t : b ∈ tachValues es := hperm.mem_iff.mpr hb
  have hya : y = a :=
    le_antisymm (hbound y hy_mem).2
      (sorted_rel_getLast (fun q : ℚ => le_refl q) _ hsorted a ha_t y hy)
  have hwb : w = b :=
    le_antisymm
      (sorted_head_rel (fun q : ℚ => le_refl q) _ hsorted b hb_t w hw)
      (hbound w hw_mem).1
  have hba : b ≤ a := (hbound a ha).1
  show (if (tachValues es).length < 2 then (0 : ℚ)
    else if 0 < (tachValues es).getLastD 0 - (tachValues es).headD 0
      then (tachValues es).getLastD 0 - (tachValues es).headD 0 else 0) = a - b
  rw [if_neg (by omega), List.getLastD_eq_getLast?, List.headD_eq_head?,
    hy, hw, hya, hwb]
  simp only [Option.getD_some]
  by_cases hd : 0 < a - b
  · rw [if_pos hd]
  · rw [if_neg hd]
    have : a - b = 0 := le_antisymm (not_lt.mp hd) (by linarith)
    exact this.symm

/-- C2: `hoursFlown` keeps only the finite numeric samples, sorts them,
and returns max − min; with fewer than two finite samples, or a
non-positive delta, it returns 0.  Concretely `hoursFlown([]) = 0`,
`hoursFlown([5]) = 0`, `hoursFlown([3,7,5]) = 4`, and the result is
invariant under reordering (hence also indifferent to duplicates). -/
theorem C2_hoursFlown_contract :
    (hoursFlown [] = 0) ∧
    (∀ q : ℚ, hoursFlown [⟨none, some (.fin q)⟩] = 0) ∧
    (hoursFlown [⟨none, some (.fin 3)⟩, ⟨none, some (.fin 7)⟩,
      ⟨none, some (.fin 5)⟩] = 4) ∧
    (∀ es es' : List PageEntry, es.Perm es' → hoursFlown es = hoursFlown es') ∧
    (∀ (es : List PageEntry) (a b : ℚ),
      2 ≤ ((es.map (fun e => e.tach_hours)).filterMap finPart).length →
      a ∈ (es.map (fun e => e.tach_hours)).filterMap finPart →
      b ∈ (es.map (fun e => e.tach_hours)).filterMap finPart →
      (∀ x ∈ (es.map (fun e => e.tach_hours)).filterMap finPart,
        b ≤ x ∧ x ≤ a) →
      hoursFlown es = a - b) := by
  refine ⟨rfl, fun q => rfl, ?_, ?_, hoursFlown_max_min⟩
  · norm_num [hoursFlown, tachValues, finPart, List.insertionSort,
      List.orderedInsert, List.filterMap]
  · intro es es' h
    simp only [hoursFlown, tachValues_perm h]

/-- Witness for C2: the max − min conjunct applied to the concrete
sample list `[3, 7, 5]` with max 7 and min 3. -/
theorem C2_hoursFlown_contract_witness :
    hoursFlown [⟨none, some (.fin 3)⟩, ⟨none, some (.fin 7)⟩,
      ⟨none, some (.fin 5)⟩] = 7 - 3 := by
  refine C2_hoursFlown_contract.2.2.2.2 _ 7 3 ?_ ?_ ?_ ?_
  · norm_num [finPart, List.filterMap]
  · norm_num [finPart, List.filterMap]
  · norm_num [finPart, List.filterMap]
  · intro x hx
    norm_num [finPart, List.filterMap] at hx
    rcases hx with rfl | rfl | rfl <;> norm_num

/-- C3 (amended): rate resolution returns `null` exactly for an empty
collection; when some record has `effective_from ≤ d` it returns a
qualifying record with the maximum effective date; when no record
qualifies it falls back to the **last element of the rate array** —
which, under the panel's ascending `effective_from` fetch order, is the
latest-dated record, not the earliest-dated one. -/
theorem C3_currentRate_contract (rates : List RentalRate) (d : String) :
    (currentRate rates d = none ↔ rates = []) ∧
    (∀ r0 ∈ rates, strLe r0.effective_from d = true →
      ∃ r, currentRate rates d = some r ∧ r ∈ rates ∧
        strLe r.effective_from d = true ∧
        ∀ r' ∈ rates, strLe r'.effective_from d = true →
          strLe r'.effective_from r.effective_from = true) ∧
    ((∀ r ∈ rates, strLe r.effective_from d = false) →
      currentRate rates d = rates.getLast?) := by
  by_cases hempty : rates = []
  · subst hempty
    refine ⟨by simp [currentRate], ?_, ?_⟩
    · intro r0 h
      cases h
    · intro _
      simp [currentRate]
  · have hisEmpty : rates.isEmpty = false := by
      simpa [List.isEmpty_iff] using hempty
    refine ⟨?_, ?_, ?_⟩
    · constructor
      · intro hnone
        exfalso
        rw [currentRate, if_neg (by simp [hisEmpty])] at hnone
        cases hu : (List.insertionSort
            (fun a b => strLe a.effective_from b.effective_from = true)
            (rates.filter (fun r => strLe r.effective_from d))).getLast? with
        | some r =>
            simp only [hu] at hnone
            exact Option.noConfusion hnone
        | none =>
            simp only [hu] at hnone
            exact hempty (List.getLast?_eq_none_iff.mp hnone)
      · intro h
        exact absurd h hempty
    · intro r0 hr0 hp0
      have hr0f : r0 ∈ rates.filter (fun r => strLe r.effective_from d) :=
        List.mem_filter.mpr ⟨hr0, hp0⟩
      have hperm := List.perm_insertionSort
        (fun a b : RentalRate => strLe a.effective_from b.effective_from = true)
        (rates.filter (fun r => strLe r.effective_from d))
      have hsorted := List.sorted_insertionSort
        (fun a b : RentalRate => strLe a.effective_from b.effective_from = true)
        (rates.filter (fun r => strLe r.effective_from d))
      obtain ⟨r, hr⟩ : ∃ r, (List.insertionSort
          (fun a b => strLe a.effective_from b.effective_from = true)
          (rates.filter (fun r => strLe r.effective_from d))).getLast?
            = some r := by
        cases hu : (List.insertionSort
            (fun a b => strLe a.effective_from b.effective_from = true)
            (rates.filter (fun r => strLe r.effective_from d))).getLast? with
        | some r => exact ⟨r, rfl⟩
        | none =>
            exfalso
            have hnil := List.getLast?_eq_none_iff.mp hu
            rw [hnil] at hperm
            exact absurd (hperm.symm.eq_nil ▸ hr0f) (List.not_mem_nil r0)
      have hrf : r ∈ rates.filter (fun r => strLe r.effective_from d) :=
        hperm.mem_iff.mp (mem_of_getLast?_eq hr)
      have hrmem := List.mem_filter.mp hrf
      refine ⟨r, ?_, hrmem.1, hrmem.2, ?_⟩
      · rw [currentRate, if_neg (by simp [hisEmpty])]
        simp only [hr]
      · intro r' hr' hp'
        exact sorted_rel_getLast
          (fun a : RentalRate => strLe_refl a.effective_from) _ hsorted r'
          (hperm.mem_iff.mpr (List.mem_filter.mpr ⟨hr', hp'⟩)) r hr
    · intro hall
      have hfilter : rates.filter (fun r => strLe r.effective_from d) = [] :=
        List.filter_eq_nil_iff.mpr (fun r hr => by simp [hall r hr])
      rw [currentRate, if_neg (by simp [hisEmpty]), hfilter]
      rfl

/-- C3 counterexample: with every rate dated after the target date, the
code returns the *last* array element — here the 2031 record — even
though a strictly earlier-dated record (2030) exists, refuting the
claim's "falls back to the single earliest-dated record overall". -/
theorem C3_currentRate_counterexample :
    currentRate [⟨10, "2030-01-01"⟩, ⟨20, "2031-01-01"⟩] "2025-06-15"
      = some ⟨20, "2031-01-01"⟩ ∧
    strLe "2030-01-01" "2031-01-01" = true ∧
    strLe "2031-01-01" "2030-01-01" = false :=
  ⟨rfl, rfl, rfl⟩

/-- Witness for C3: the fallback conjunct at a one-element future-dated
rate list, and the empty-collection conjunct. -/
theorem C3_currentRate_contract_witness :
    currentRate [⟨10, "2030-01-01"⟩] "2025-06-15"
      = [(⟨10, "2030-01-01"⟩ : RentalRate)].getLast? ∧
    currentRate [] "2020-01-01" = none := by
  constructor
  · refine (C3_currentRate_contract _ _).2.2 ?_
    intro r hr
    rw [List.mem_singleton] at hr
    subst hr
    rfl
  · exact (C3_currentRate_contract [] "2020-01-01").1.mpr rfl

theorem jmul_fin_fin (a b : ℚ) : jmul (.fin a) (.fin b) = .fin (a * b) := rfl

theorem totals_spend (logs : List RentalLog) (maint : List MaintenanceEntry)
    (start stop : String) :
    (totals logs maint start stop).spend =
      jsuml ((maintenanceInRange maint start stop).map
        (fun m => numOr0 m.amount)) := rfl

theorem totals_revenue (logs : List RentalLog) (maint : List MaintenanceEntry)
    (start stop : String) :
    (totals logs maint start stop).revenue =
      jsuml ((logsInRange logs start stop).map
        (fun l => jmul (numOr0 l.hours) (numOr0 l.hourly_rate))) := rfl

theorem totals_hours (logs : List RentalLog) (maint : List MaintenanceEntry)
    (start stop : String) :
    (totals logs maint start stop).hours =
      jsuml ((logsInRange logs start stop).map
        (fun l => numOr0 l.hours)) := rfl

/-- Sums of a pointwise finite, nonnegative summand over a filtered list
are monotone in the filter predicate. -/
theorem jsum_filter_mono {α : Type} (xs : List α) (p q : α → Bool)
    (hpq : ∀ a, p a = true → q a = true) (g : α → JNum)
    (hfin : ∀ a ∈ xs, ∃ v : ℚ, 0 ≤ v ∧ g a = .fin v) :
    ∃ u v : ℚ, jsuml ((xs.filter p).map g) = .fin u ∧
      jsuml ((xs.filter q).map g) = .fin v ∧ u ≤ v := by
  have hfin_p : ∀ x ∈ (xs.filter p).map g, ∃ w : ℚ, x = .fin w := by
    intro x hx
    obtain ⟨a, ha, rfl⟩ := List.mem_map.mp hx
    obtain ⟨v, _, hv⟩ := hfin a (List.mem_filter.mp ha).1
    exact ⟨v, hv⟩
  have hfin_q : ∀ x ∈ (xs.filter q).map g, ∃ w : ℚ, x = .fin w := by
    intro x hx
    obtain ⟨a, ha, rfl⟩ := List.mem_map.mp hx
    obtain ⟨v, _, hv⟩ := hfin a (List.mem_filter.mp ha).1
    exact ⟨v, hv⟩
  refine ⟨(((xs.filter p).map g).map theQ).sum,
    (((xs.filter q).map g).map theQ).sum,
    jsuml_fin hfin_p, jsuml_fin hfin_q, ?_⟩
  have hsub : List.Sublist (((xs.filter p).map g).map theQ)
      (((xs.filter q).map g).map theQ) :=
    (((List.monotone_filter_right xs hpq).map g).map theQ)
  refine hsub.sum_le_sum ?_
  intro x hx
  obtain ⟨y, hy, rfl⟩ := List.mem_map.mp hx
  obtain ⟨a, ha, rfl⟩ := List.mem_map.mp hy
  obtain ⟨v, hv0, hv⟩ := hfin a (List.mem_filter.mp ha).1
  rw [hv]
  simpa [theQ] using hv0

/-- C6: for nested inclusive date ranges, the range-filtered sums
(maintenance spend, rental revenue, rental hours) computed by `totals`
are monotone under range containment, assuming all coerced inputs are
finite and non-negative. -/
theorem C6_aggregate_monotone (logs : List RentalLog)
    (maint : List MaintenanceEntry) (s e s' e' : String)
    (hs : strLe s s' = true) (he : strLe e' e = true)
    (hlog : ∀ l ∈ logs, (∃ q : ℚ, 0 ≤ q ∧ numOr0 l.hours = .fin q) ∧
      (∃ q : ℚ, 0 ≤ q ∧ numOr0 l.hourly_rate = .fin q))
    (hmaint : ∀ m ∈ maint, ∃ q : ℚ, 0 ≤ q ∧ numOr0 m.amount = .fin q) :
    (∃ u v : ℚ, (totals logs maint s' e').spend = .fin u ∧
      (totals logs maint s e).spend = .fin v ∧ u ≤ v) ∧
    (∃ u v : ℚ, (totals logs maint s' e').revenue = .fin u ∧
      (totals logs maint s e).revenue = .fin v ∧ u ≤ v) ∧
    (∃ u v : ℚ, (totals logs maint s' e').hours = .fin u ∧
      (totals logs maint s e).hours = .fin v ∧ u ≤ v) := by
  have himp_m : ∀ m : MaintenanceEntry,
      (strLe s' m.entry_date && strLe m.entry_date e') = true →
      (strLe s m.entry_date && strLe m.entry_date e) = true := by
    intro m hm
    rw [Bool.and_eq_true] at hm ⊢
    exact ⟨strLe_trans hs hm.1, strLe_trans hm.2 he⟩
  have himp_l : ∀ l : RentalLog,
      (strLe s' l.rental_date && strLe l.rental_date e') = true →
      (strLe s l.rental_date && strLe l.rental_date e) = true := by
    intro l hl
    rw [Bool.and_eq_true] at hl ⊢
    exact ⟨strLe_trans hs hl.1, strLe_trans hl.2 he⟩
  refine ⟨?_, ?_, ?_⟩
  · simp only [totals_spend, maintenanceInRange]
    exact jsum_filter_mono maint _ _ himp_m _ hmaint
  · simp only [totals_revenue, logsInRange]
    refine jsum_filter_mono logs _ _ himp_l _ ?_
    intro l hl
    obtain ⟨⟨qh, hqh0, hqh⟩, ⟨qr, hqr0, hqr⟩⟩ := hlog l hl
    exact ⟨qh * qr, mul_nonneg hqh0 hqr0, by rw [hqh, hqr, jmul_fin_fin]⟩
  · simp only [totals_hours, logsInRange]
    refine jsum_filter_mono logs _ _ himp_l _ ?_
    intro l hl
    exact (hlog l hl).1

/-- Witness for C6: a one-log, one-maintenance-entry data set, with the
February range nested inside the full-year range. -/
theorem C6_aggregate_monotone_witness :
    (∃ u v : ℚ,
      (totals [⟨"2025-03-10", some (.fin 2), some (.fin 100)⟩]
        [⟨"2025-02-01", some (.fin 40)⟩] "2025-02-01" "2025-02-28").spend = .fin u ∧
      (totals [⟨"2025-03-10", some (.fin 2), some (.fin 100)⟩]
        [⟨"2025-02-01", some (.fin 40)⟩] "2025-01-01" "2025-12-31").spend = .fin v ∧
      u ≤ v) ∧
    (∃ u v : ℚ,
      (totals [⟨"2025-03-10", some (.fin 2), some (.fin 100)⟩]
        [⟨"2025-02-01", some (.fin 40)⟩] "2025-02-01" "2025-02-28").revenue = .fin u ∧
      (totals [⟨"2025-03-10", some (.fin 2), some (.fin 100)⟩]
        [⟨"2025-02-01", some (.fin 40)⟩] "2025-01-01" "2025-12-31").revenue = .fin v ∧
      u ≤ v) ∧
    (∃ u v : ℚ,
      (totals [⟨"2025-03-10", some (.fin 2), some (.fin 100)⟩]
        [⟨"2025-02-01", some (.fin 40)⟩] "2025-02-01" "2025-02-28").hours = .fin u ∧
      (totals [⟨"2025-03-10", some (.fin 2), some (.fin 100)⟩]
        [⟨"2025-02-01", some (.fin 40)⟩] "2025-01-01" "2025-12-31").hours = .fin v ∧
      u ≤ v) := by
  refine C6_aggregate_monotone _ _ _ _ _ _ rfl rfl ?_ ?_
  · intro l hl
    rw [List.mem_singleton] at hl
    subst hl
    exact ⟨⟨2, by norm_num, rfl⟩, ⟨100, by norm_num, rfl⟩⟩
  · intro m hm
    rw [List.mem_singleton] at hm
    subst hm
    exact ⟨40, by norm_num, rfl⟩

theorem totalSpend_eq (es : List PageEntry) :
    totalSpend es = jsuml (es.map
      (fun e => match e.amount with | some n => n | none => .fin 0)) := by
  unfold totalSpend jsuml
  rw [List.foldl_map]

/-- C7 (amended): every aggregation function is total by construction
and never throws; a `null`/non-numeric amount is treated as 0 by
`totalSpend`, non-finite usage samples are excluded by `tachValues`, and
the `Number(x) || 0` coercion used by `totals` sends `null` and `NaN` to
0 — but a non-finite *numeric* amount is not zeroed by `totalSpend`
(its `typeof` guard admits `NaN`/`±Infinity`), and `±Infinity` passes
through `Number(x) || 0`. -/
theorem C7_totality_amended :
    (∀ es : List PageEntry,
      (∀ e ∈ es, e.amount = none ∨ ∃ q : ℚ, e.amount = some (.fin q)) →
      totalSpend es =
        .fin ((es.map (fun e => (finPart e.amount).getD 0)).sum)) ∧
    (∀ (e : PageEntry) (es : List PageEntry), finPart e.tach_hours = none →
      tachValues (e :: es) = tachValues es) ∧
    (numOr0 (some .nan) = .fin 0 ∧ numOr0 none = .fin 0 ∧
      numOr0 (some .inf) = .inf) := by
  refine ⟨?_, ?_, rfl, rfl, rfl⟩
  · intro es hes
    rw [totalSpend_eq,
      jsuml_fin (by
        intro x hx
        obtain ⟨e, he, rfl⟩ := List.mem_map.mp hx
        rcases hes e he with h | ⟨q, h⟩
        · exact ⟨0, by simp [h]⟩
        · exact ⟨q, by simp [h]⟩)]
    congr 1
    rw [List.map_map]
    congr 1
    refine List.map_congr_left ?_
    intro e he
    rcases hes e he with h | ⟨q, h⟩ <;> simp [h, theQ, finPart, Function.comp]
  · intro e es h
    simp only [tachValues, List.map_cons, List.filterMap_cons, h]

/-- C7 counterexample: a `NaN` amount passes the `typeof` check in
`totalSpend` and poisons the sum — the result is `NaN`, not the 0 that
"treated as 0 or excluded" would give (the empty list sums to 0). -/
theorem C7_totality_counterexample :
    totalSpend [⟨some .nan, none⟩] = .nan ∧
    totalSpend [⟨some .nan, none⟩] ≠ .fin 0 ∧
    totalSpend [] = .fin 0 :=
  ⟨rfl, fun h => JNum.noConfusion h, rfl⟩

/-- Witness for C7: the amended `totalSpend` conjunct at a two-entry
list with one `null` and one finite amount. -/
theorem C7_totality_amended_witness :
    totalSpend [⟨none, none⟩, ⟨some (.fin 25), none⟩] =
      .fin (([⟨none, none⟩, (⟨some (.fin 25), none⟩ : PageEntry)].map
        (fun e => (finPart e.amount).getD 0)).sum) := by
  refine C7_totality_amended.1 _ ?_
  intro e he
  rcases List.mem_cons.mp he with rfl | he2
  · exact Or.inl rfl
  · rcases List.mem_cons.mp he2 with rfl | he3
    · exact Or.inr ⟨25, rfl⟩
    · cases he3

/-- C8: `totals` and `yearSeries` read only the rental logs (with their
snapshotted `hourly_rate`) and the maintenance entries from the panel
state — two states that agree on logs and maintenance but hold
arbitrary, different rate tables produce identical revenue, spend,
profit and profit-per-hour figures. -/
theorem C8_rate_independence (s1 s2 : PanelState)
    (hlog : s1.logs = s2.logs) (hmaint : s1.maintenance = s2.maintenance) :
    (∀ start stop, totalsOf s1 start stop = totalsOf s2 start stop) ∧
    (∀ year, yearSeriesOf s1 year = yearSeriesOf s2 year) := by
  refine ⟨fun start stop => ?_, fun year => ?_⟩
  · simp only [totalsOf, hlog, hmaint]
  · simp only [yearSeriesOf, hlog, hmaint]

/-- Witness for C8: the same single log and empty maintenance list under
two different rate tables give the same `totals`. -/
theorem C8_rate_independence_witness :
    totalsOf ⟨[⟨"2025-01-10", some (.fin 2), some (.fin 100)⟩],
        [⟨(50 : ℚ), "2020-01-01"⟩], []⟩ "2025-01-01" "2025-12-31"
      = totalsOf ⟨[⟨"2025-01-10", some (.fin 2), some (.fin 100)⟩],
        [⟨(999 : ℚ), "2024-06-01"⟩], []⟩ "2025-01-01" "2025-12-31" :=
  (C8_rate_independence _ _ rfl rfl).1 _ _

/-- C9 (amended): aggregation is deterministic, does not mutate its
inputs, and — over exact arithmetic, i.e. whenever the floating-point
additions incur no rounding — permuting the input lists leaves
`totals`, `tachValues` and `totalSpend` unchanged.  `tachValues` (a
sort) is genuinely order-insensitive; the additive sums are
order-insensitive only up to rounding: the double-precision fold itself
is order-dependent (see the counterexample on `dsum`). -/
theorem C9_order_insensitivity :
    (∀ (logs logs' : List RentalLog) (maint maint' : List MaintenanceEntry)
      (start stop : String), logs.Perm logs' → maint.Perm maint' →
      totals logs maint start stop = totals logs' maint' start stop) ∧
    (∀ es es' : List PageEntry, es.Perm es' →
      tachValues es = tachValues es' ∧ totalSpend es = totalSpend es') := by
  constructor
  · intro logs logs' maint maint' start stop hl hm
    have h1 : (logsInRange logs start stop).Perm
        (logsInRange logs' start stop) := hl.filter _
    have h2 : (maintenanceInRange maint start stop).Perm
        (maintenanceInRange maint' start stop) := hm.filter _
    have hh : jsuml ((logsInRange logs start stop).map
        (fun l => numOr0 l.hours)) =
      jsuml ((logsInRange logs' start stop).map
        (fun l => numOr0 l.hours)) := jsuml_perm (h1.map _)
    have hr : jsuml ((logsInRange logs start stop).map
        (fun l => jmul (numOr0 l.hours) (numOr0 l.hourly_rate))) =
      jsuml ((logsInRange logs' start stop).map
        (fun l => jmul (numOr0 l.hours) (numOr0 l.hourly_rate))) :=
      jsuml_perm (h1.map _)
    have hsp : jsuml ((maintenanceInRange maint start stop).map
        (fun m => numOr0 m.amount)) =
      jsuml ((maintenanceInRange maint' start stop).map
        (fun m => numOr0 m.amount)) := jsuml_perm (h2.map _)
    simp only [totals, hh, hr, hsp]
  · intro es es' h
    refine ⟨tachValues_perm h, ?_⟩
    rw [totalSpend_eq, totalSpend_eq]
    exact jsuml_perm (h.map _)

/-- Witness for C9: swapping the two logs leaves `totals` unchanged. -/
theorem C9_order_insensitivity_witness :
    totals [⟨"2025-01-10", some (.fin 2), some (.fin 100)⟩,
        ⟨"2025-02-10", some (.fin 3), some (.fin 110)⟩] []
        "2025-01-01" "2025-12-31"
      = totals [⟨"2025-02-10", some (.fin 3), some (.fin 110)⟩,
        ⟨"2025-01-10", some (.fin 2), some (.fin 100)⟩] []
        "2025-01-01" "2025-12-31" :=
  C9_order_insensitivity.1 _ _ _ _ _ _ (List.Perm.swap _ _ _)
    (List.Perm.refl _)

/-- An entry the chart keeps always has a truthy, parseable date. -/
theorem chartKeep_valid {todayY todayM0 : ℕ} {view : ChartView}
    {e : ChartEntry} (h : chartKeep todayY todayM0 view e = true) :
    hasValidDate e = true := by
  obtain ⟨cat, amt, ed⟩ := e
  cases ed with
  | none => exact Bool.noConfusion h
  | some ds =>
      show (!ds.isEmpty && (parseLocalDate ds).isSome) = true
      by_cases hemp : ds.isEmpty = true
      · simp [chartKeep, hemp] at h
      · have hemp' : ds.isEmpty = false := by
          simpa using hemp
        cases hp : parseLocalDate ds with
        | none =>
            simp [chartKeep, hemp', hp] at h
        | some d =>
            simp [hemp', hp]

/-- C10: entries whose date is `null` (or empty) or fails to parse are
excluded by the chart filter in every view — removing them from the
input first changes nothing: the filtered list, its entry count, the
total, and the per-category sums are all identical; a dated-`null`
entry with a present amount contributes nothing even in the "All Time"
view; and prepending any entry without a valid date leaves the filtered
list (hence every derived aggregate) unchanged. -/
theorem C10_undated_excluded (todayY todayM0 : ℕ) (view : ChartView)
    (es : List ChartEntry) :
    filtered todayY todayM0 view es =
      filtered todayY todayM0 view (es.filter hasValidDate) ∧
    (∀ e ∈ filtered todayY todayM0 view es, hasValidDate e = true) ∧
    (filtered todayY todayM0 view es).length =
      (filtered todayY todayM0 view (es.filter hasValidDate)).length ∧
    chartTotal (filtered todayY todayM0 view es) =
      chartTotal (filtered todayY todayM0 view (es.filter hasValidDate)) ∧
    totalsByCategory (filtered todayY todayM0 view es) =
      totalsByCategory
        (filtered todayY todayM0 view (es.filter hasValidDate)) ∧
    filtered todayY todayM0 ChartView.all
      [⟨some "Maintenance", some (.fin 100), none⟩] = [] ∧
    (∀ (e : ChartEntry) (l : List ChartEntry), hasValidDate e = false →
      filtered todayY todayM0 view (e :: l) =
        filtered todayY todayM0 view l) := by
  have hmain : filtered todayY todayM0 view es =
      filtered todayY todayM0 view (es.filter hasValidDate) := by
    unfold filtered
    rw [List.filter_filter]
    refine List.filter_congr ?_
    intro a _
    cases hb : chartKeep todayY todayM0 view a with
    | false => rfl
    | true =>
        rw [chartKeep_valid hb]
        rfl
  refine ⟨hmain, ?_, by rw [hmain], by rw [hmain], by rw [hmain], rfl, ?_⟩
  · intro e he
    unfold filtered at he
    exact chartKeep_valid (List.mem_filter.mp he).2
  · intro e l hv
    unfold filtered
    refine List.filter_cons_of_neg ?_
    intro hk
    rw [chartKeep_valid hk] at hv
    exact Bool.noConfusion hv

/-- C5: `yearSeries` always produces exactly 12 buckets; a month with no
logs and no maintenance entries still yields a row with 0 hours, 0
revenue, 0 spend, 0 profit and a `null` per-hour value (never omitted);
and the concrete scenario — entries dated 2025-03-05 (amount 100) and
2025-07-10 (amount 50) for year 2025 — yields a 12-element series whose
spend is 100 at index 2 (March), 50 at index 6 (July), and 0 at the
other ten indices. -/
theorem C5_yearSeries_contract :
    (∀ (logs : List RentalLog) (maint : List MaintenanceEntry) (year : ℕ),
      (yearSeries logs maint year).length = 12) ∧
    (∀ (logs : List RentalLog) (maint : List MaintenanceEntry)
      (year m0 : ℕ), m0 < 12 →
      (∀ l ∈ logs, ¬ ((strLe (monthStart year m0) l.rental_date &&
        strLe l.rental_date (monthEnd year m0)) = true)) →
      (∀ m ∈ maint, ¬ ((strLe (monthStart year m0) m.entry_date &&
        strLe m.entry_date (monthEnd year m0)) = true)) →
      (yearSeries logs maint year).getD m0 default =
        ⟨m0, monthStart year m0, monthEnd year m0,
          .fin 0, .fin 0, .fin 0, .fin 0, none⟩) ∧
    ((yearSeries [] [⟨"2025-03-05", some (.fin 100)⟩,
        ⟨"2025-07-10", some (.fin 50)⟩] 2025).map SeriesRow.spend =
      [.fin 0, .fin 0, .fin 100, .fin 0, .fin 0, .fin 0, .fin 50,
        .fin 0, .fin 0, .fin 0, .fin 0, .fin 0]) := by
  refine ⟨?_, ?_, ?_⟩
  · intro logs maint year
    simp [yearSeries]
  · intro logs maint year m0 hm hl hmt
    have hlen : m0 < (yearSeries logs maint year).length := by
      simpa [yearSeries] using hm
    rw [List.getD_eq_getElem _ _ hlen]
    unfold yearSeries
    rw [List.getElem_map, List.getElem_range]
    have hfl : logs.filter (fun l =>
        strLe (monthStart year m0) l.rental_date &&
        strLe l.rental_date (monthEnd year m0)) = [] :=
      List.filter_eq_nil_iff.mpr hl
    have hfm : maint.filter (fun m =>
        strLe (monthStart year m0) m.entry_date &&
        strLe m.entry_date (monthEnd year m0)) = [] :=
      List.filter_eq_nil_iff.mpr hmt
    simp only [hfl, hfm, List.map_nil]
    norm_num [jsuml, JNum.jsub, JNum.jneg, JNum.gtZero, jadd_fin_fin,
      SeriesRow.mk.injEq]
  · have hr12 : List.range 12 = [0, 1, 2, 3, 4, 5, 6, 7, 8, 9, 10, 11] := rfl
    unfold yearSeries
    rw [hr12]
    simp only [List.map_cons, List.map_nil]
    simp +decide only [List.filter_cons, List.filter_nil]
    norm_num [jsuml, jadd_fin_fin, JNum.jsub, JNum.jneg, JNum.gtZero,
      numOr0, JNum.fin.injEq]

/-- Witness for C5: the empty-bucket conjunct at an empty data set,
January 2025. -/
theorem C5_yearSeries_contract_witness :
    (yearSeries [] [] 2025).getD 0 default =
      ⟨0, monthStart 2025 0, monthEnd 2025 0,
        .fin 0, .fin 0, .fin 0, .fin 0, none⟩ :=
  C5_yearSeries_contract.2.1 [] [] 2025 0 (by norm_num)
    (fun l hl => absurd hl (List.not_mem_nil l))
    (fun m hm => absurd hm (List.not_mem_nil m))

/-- Witness for C10: a kept entry — category Fuel, amount 10, date
2025-03-05 — indeed has a valid date. -/
theorem C10_undated_excluded_witness :
    hasValidDate
      (⟨some "Fuel", some (.fin 10), some "2025-03-05"⟩ : ChartEntry) = true :=
  (C10_undated_excluded 2025 5 ChartView.all
    [⟨some "Fuel", some (.fin 10), some "2025-03-05"⟩]).2.1 _
    (by
      rw [show filtered 2025 5 ChartView.all
          [⟨some "Fuel", some (.fin 10), some "2025-03-05"⟩] =
          [⟨some "Fuel", some (.fin 10), some "2025-03-05"⟩] from rfl]
      exact List.mem_singleton.mpr rfl)

/-- The binary exponent is determined by its bracketing powers of 2. -/
theorem int_log_eq {q : ℚ} {e : ℤ} (hq : 0 < q)
    (h1 : (2 : ℚ) ^ e ≤ q) (h2 : q < 2 ^ (e + 1)) : Int.log 2 q = e := by
  have hb : (1 : ℕ) < 2 := one_lt_two
  have hl : ((2 : ℕ) : ℚ) ^ Int.log 2 q ≤ q := Int.zpow_log_le_self hb hq
  have hu : q < ((2 : ℕ) : ℚ) ^ (Int.log 2 q + 1) :=
    Int.lt_zpow_succ_log_self hb q
  have hcast : ((2 : ℕ) : ℚ) = (2 : ℚ) := by norm_num
  rw [hcast] at hl hu
  have hx : (1 : ℚ) < 2 := by norm_num
  have h1' : Int.log 2 q < e + 1 :=
    (zpow_lt_zpow_iff_right₀ hx).mp (lt_of_le_of_lt hl h2)
  have h2' : e < Int.log 2 q + 1 :=
    (zpow_lt_zpow_iff_right₀ hx).mp (lt_of_le_of_lt h1 hu)
  omega

/-- Rounding a rational whose fractional part is below one half gives
its floor. -/
theorem roundHalfEven_eq_floor {x : ℚ} {n : ℤ} (hf : ⌊x⌋ = n)
    (h : x - n < 1/2) : roundHalfEven x = n := by
  unfold roundHalfEven
  rw [hf, if_pos h]

/-- Evaluation of `dRound` at a positive rational with known binary
exponent. -/
theorem dRound_pos (q : ℚ) (e : ℤ) (hq : 0 < q)
    (h1 : (2 : ℚ) ^ e ≤ q) (h2 : q < 2 ^ (e + 1)) :
    dRound q =
      (roundHalfEven (q * 2 ^ ((52 : ℤ) - e)) : ℚ) * 2 ^ (e - 52) := by
  unfold dRound
  rw [if_neg (ne_of_gt hq), if_neg (not_lt.mpr hq.le),
    int_log_eq hq h1 h2]

/-- The value `1e20` is exactly representable in binary64 (its
significand `2^6 * 5^20` fits in 53 bits), so rounding fixes it. -/
theorem dRound_1e20 : dRound (10 ^ 20) = 10 ^ 20 := by
  rw [dRound_pos (10 ^ 20) 66 (by norm_num) (by norm_num) (by norm_num)]
  rw [show (10 ^ 20 : ℚ) * 2 ^ ((52 : ℤ) - 66) = 6103515625000000 from by
    norm_num]
  rw [roundHalfEven_eq_floor (n := 6103515625000000)
    (by rw [Int.floor_eq_iff]; norm_num) (by norm_num)]
  norm_num

/-- Adding 1 to `1e20` in binary64 is absorbed: the exact sum is only
`2^-14` of a unit in the last place above `1e20`, so it rounds back
down. -/
theorem dRound_1e20_add_one : dRound (10 ^ 20 + 1) = 10 ^ 20 := by
  rw [dRound_pos (10 ^ 20 + 1) 66 (by norm_num) (by norm_num) (by norm_num)]
  rw [show (10 ^ 20 + 1 : ℚ) * 2 ^ ((52 : ℤ) - 66) =
      6103515625000000 + 1/16384 from by norm_num]
  rw [roundHalfEven_eq_floor (n := 6103515625000000)
    (by rw [Int.floor_eq_iff]; norm_num) (by norm_num)]
  norm_num

/-- The value 1 is exactly representable. -/
theorem dRound_one : dRound 1 = 1 := by
  rw [dRound_pos 1 0 one_pos (by norm_num) (by norm_num)]
  rw [show (1 : ℚ) * 2 ^ ((52 : ℤ) - 0) = 4503599627370496 from by norm_num]
  rw [roundHalfEven_eq_floor (n := 4503599627370496)
    (by rw [Int.floor_eq_iff]; norm_num) (by norm_num)]
  norm_num

theorem dRound_zero : dRound 0 = 0 := by
  unfold dRound
  rw [if_pos rfl]

/-- C9 counterexample: the program's `reduce` sum over actual doubles is
order-dependent, so "permuting the input list yields an identical
aggregate output" is false of the source as stated: summing amounts
`[1e20, -1e20, 1]` gives 1, but the permuted `[1e20, 1, -1e20]` gives 0
(the 1 is absorbed by rounding before it can survive the
cancellation). -/
theorem C9_order_counterexample :
    dsum [10 ^ 20, -(10 ^ 20), 1] = 1 ∧
    dsum [10 ^ 20, 1, -(10 ^ 20)] = 0 ∧
    ([10 ^ 20, -(10 ^ 20), 1] : List ℚ).Perm [10 ^ 20, 1, -(10 ^ 20)] := by
  have hz : dadd 0 (10 ^ 20) = 10 ^ 20 := by
    rw [dadd, zero_add]
    exact dRound_1e20
  have hcancel : dadd (10 ^ 20 : ℚ) (-(10 ^ 20)) = 0 := by
    rw [dadd, show (10 ^ 20 : ℚ) + -(10 ^ 20) = 0 from by ring]
    exact dRound_zero
  have habs : dadd (10 ^ 20 : ℚ) 1 = 10 ^ 20 := by
    rw [dadd]
    exact dRound_1e20_add_one
  refine ⟨?_, ?_, List.Perm.cons _ (List.Perm.swap _ _ _)⟩
  · unfold dsum
    rw [List.foldl_cons, List.foldl_cons, List.foldl_cons, List.foldl_nil]
    rw [hz, hcancel, dadd, zero_add]
    exact dRound_one
  · unfold dsum
    rw [List.foldl_cons, List.foldl_cons, List.foldl_cons, List.foldl_nil]
    rw [hz, habs, hcancel]
